import Mathlib

/-!
Verification of the RAG mini-project retrieval core (the rag logic in
public/app.js): text normalization and chunking, cosine similarity,
similarity ranking, index construction, the JSON payload round-trip, and
the load phase of question answering. JavaScript strings are modelled as
lists of characters, numbers as exact rationals (square roots are taken in
the real numbers), and effectful steps (file IO, the embedding service) as
explicit parameters or Except values.
-/

/-- Whitespace recognized by the model of JavaScript String.trim
(restricted to the whitespace characters that occur in this pipeline). -/
def isWS (c : Char) : Bool :=
  c = ' ' || c = '\t' || c = '\n' || c = '\r' || c = '\x0b' || c = '\x0c'

/-- Strip the trailing run of whitespace characters. -/
def trimRight : List Char → List Char
  | [] => []
  | c :: cs =>
    let r := trimRight cs
    if r = [] then (if isWS c then [] else [c]) else c :: r

/-- Model of String.prototype.trim on character lists: strip leading and
trailing whitespace. -/
def trimChars (l : List Char) : List Char :=
  trimRight (l.dropWhile isWS)

/-- Model of the replace of runs of spaces and tabs by a single space
(the second replace in chunkText). The Boolean argument records whether
the previous character belonged to such a run. -/
def collapseHS : Bool → List Char → List Char
  | _, [] => []
  | inRun, c :: cs =>
    if c = ' ' || c = '\t' then
      if inRun then collapseHS true cs else ' ' :: collapseHS true cs
    else c :: collapseHS false cs

/-- Model of the replace of three or more consecutive line feeds by exactly
two (the third replace in chunkText). The counter is the number of line
feeds seen in the current run. -/
def collapseNL : Nat → List Char → List Char
  | _, [] => []
  | seen, c :: cs =>
    if c = '\n' then
      if seen < 2 then '\n' :: collapseNL (seen + 1) cs else collapseNL (seen + 1) cs
    else c :: collapseNL 0 cs

/-- The normalization performed at the top of chunkText: remove carriage
returns, collapse runs of horizontal whitespace to one space, collapse
three or more line feeds to two, then trim. -/
def normalizeText (t : List Char) : List Char :=
  trimChars (collapseNL 0 (collapseHS false (t.filter (fun c => c != '\r'))))

/-- Model of cleaned.slice(s, e) for 0 ≤ s ≤ e. -/
def windowSlice (cleaned : List Char) (s e : Nat) : List Char :=
  (cleaned.drop s).take (e - s)

/-- The while loop of chunkText, with explicit fuel. Each iteration takes
the window from the cursor i to min (i + w) length, trims it, emits it when
non-empty, stops when the window end reached the length, and otherwise
moves the cursor to end - overlap (Nat subtraction truncates at zero,
matching Math.max(0, end - overlap)). The result is none when the fuel ran
out before the loop finished, so a none for every fuel value means the
source loop does not terminate. -/
def chunkLoop (cleaned : List Char) (w o : Nat) : Nat → Nat → Option (List (List Char))
  | 0, _ => none
  | fuel + 1, i =>
    if i < cleaned.length then
      let e := min (i + w) cleaned.length
      let c := trimChars (windowSlice cleaned i e)
      match (if e = cleaned.length then some [] else chunkLoop cleaned w o fuel (e - o)) with
      | none => none
      | some cs => some (if c = [] then cs else c :: cs)
    else some []

/-- chunkText from the source: normalize, then run the windowing loop from
cursor 0. The fuel length + 1 suffices whenever overlap < window size. -/
def chunkText (text : List Char) (w : Nat := 1200) (o : Nat := 200) : List (List Char) :=
  (chunkLoop (normalizeText text) w o ((normalizeText text).length + 1) 0).getD []

/-- The same loop as chunkLoop, recording the (start, end) cursor pairs of
the successive windows instead of the trimmed chunks. -/
def windowLoop (cleaned : List Char) (w o : Nat) : Nat → Nat → Option (List (Nat × Nat))
  | 0, _ => none
  | fuel + 1, i =>
    if i < cleaned.length then
      let e := min (i + w) cleaned.length
      match (if e = cleaned.length then some [] else windowLoop cleaned w o fuel (e - o)) with
      | none => none
      | some ws => some ((i, e) :: ws)
    else some []

/-- The list of window cursor pairs visited by chunkText. -/
def windowsOf (text : List Char) (w o : Nat) : List (Nat × Nat) :=
  (windowLoop (normalizeText text) w o ((normalizeText text).length + 1) 0).getD []

/-- The concatenation of the windows of a cursor trace, each window
stripped of its first o characters (the part it shares with its
predecessor). -/
def overlapDropped (cleaned : List Char) (o : Nat) (ws : List (Nat × Nat)) : List Char :=
  (ws.map (fun p => (windowSlice cleaned p.1 p.2).drop o)).flatten

/-- The first window of a cursor trace followed by the overlap-stripped
remaining windows: the reconstruction of the text from its windows. -/
def reassemble (cleaned : List Char) (o : Nat) : List (Nat × Nat) → List Char
  | [] => []
  | p :: ws => windowSlice cleaned p.1 p.2 ++ overlapDropped cleaned o ws

/-- The concatenation of the emitted segments after removing the declared
overlap from each segment but the first: the reconstruction procedure the
specification describes for checking segmentation against the text. -/
def overlapConcat (o : Nat) : List (List Char) → List Char
  | [] => []
  | c :: cs => c ++ (cs.map (List.drop o)).flatten

/-- The accumulator loop of cosineSimilarity: dot product and the two
squared norms, summed over the common prefix of the two vectors (the for
loop bounded by the shorter length), in exact rational arithmetic. -/
def simSums : List ℚ → List ℚ → ℚ × ℚ × ℚ
  | x :: xs, y :: ys =>
    let s := simSums xs ys
    (x * y + s.1, x * x + s.2.1, y * y + s.2.2)
  | _, _ => (0, 0, 0)

/-- cosineSimilarity from the source: dot / (sqrt(na) * sqrt(nb)) when
that denominator is non-zero, 0 otherwise, with the square roots taken in
the real numbers. -/
noncomputable def cosineSimilarity (a b : List ℚ) : ℝ :=
  let s := simSums a b
  let denom := Real.sqrt (s.2.1 : ℝ) * Real.sqrt (s.2.2 : ℝ)
  if denom = 0 then 0 else (s.1 : ℝ) / denom

/-- The sums of the specification's similarity formula: the sum of
elementwise products of two vectors over the indices below an explicit
bound L (the formula instantiates L with the shorter length). -/
noncomputable def specSum (a b : List ℚ) (L : Nat) : ℝ :=
  ∑ i ∈ Finset.range L, (a.getD i 0 : ℝ) * (b.getD i 0 : ℝ)

/-- DimensionMismatchError from the specification's error taxonomy. -/
inductive SimFailure where
  | dimensionMismatch
deriving DecidableEq

/-- Modelled from the spec: the similarity comparison as section 4.2 words
it, failing with DimensionMismatchError exactly when the two vectors share
no comparable dimensions; written only to be compared with the source
function cosineSimilarity, which never fails. -/
noncomputable def cosineSimilaritySpec (a b : List ℚ) : Except SimFailure ℝ :=
  if min a.length b.length = 0 then .error .dimensionMismatch
  else .ok (cosineSimilarity a b)

/-- A record paired with its similarity score, as built by the map step of
answerQuestion; seq is the record's 1-based sequence number. -/
structure ScoredRec (σ : Type) where
  seq : Nat
  score : σ
deriving DecidableEq

/-- The sort step of answerQuestion: Array.prototype.sort with comparator
(a, b) => b.score - a.score is a stable descending sort by score
(ECMAScript requires sort stability), modelled as the stable insertion
sort that places a record before the first already-placed record whose
score is not larger. -/
def sortScoredDesc {σ : Type} [LinearOrder σ] (l : List (ScoredRec σ)) : List (ScoredRec σ) :=
  l.insertionSort (fun a b => b.score ≤ a.score)

/-- The sort-then-slice ranking step of answerQuestion. -/
def rankTopK {σ : Type} [LinearOrder σ] (l : List (ScoredRec σ)) (k : Nat) :
    List (ScoredRec σ) :=
  (sortScoredDesc l).take k

/-- Failure of the embedding service call (ollamaEmbeddings rejecting). -/
inductive EmbedFailure where
  | serviceFailure
deriving DecidableEq

/-- One entry of the persisted index: the object pushed into items by
indexPdfToJson. -/
structure IndexItem where
  id : String
  source : String
  chunk : Nat
  text : String
  embedding : List ℚ
deriving DecidableEq

/-- The statistics object returned by indexPdfToJson. -/
structure IndexStats where
  chunks : Nat
  embedModel : String
  source : String
deriving DecidableEq

/-- The payload object serialized to index.json by indexPdfToJson. -/
structure IndexPayload where
  createdAt : String
  source : String
  embedModel : String
  chunkSize : Nat
  chunkOverlap : Nat
  count : Nat
  items : List IndexItem
deriving DecidableEq

/-- The embedding loop of indexPdfToJson: one item per chunk, in order,
with 1-based chunk numbers; the first embedding failure aborts the whole
operation (the awaited call rejects before anything is written). -/
def buildItems (src : String) (embed : List Char → Except EmbedFailure (List ℚ)) :
    Nat → List (List Char) → Except EmbedFailure (List IndexItem)
  | _, [] => .ok []
  | i, c :: cs =>
    match embed c with
    | .error e => .error e
    | .ok v =>
      match buildItems src embed (i + 1) cs with
      | .error e => .error e
      | .ok rest =>
        .ok ({ id := src ++ "::chunk_" ++ toString (i + 1), source := src, chunk := i + 1,
               text := String.mk c, embedding := v } :: rest)

/-- indexPdfToJson on the text extracted from the PDF: chunk, embed each
chunk, and on success return the payload written to outPath together with
the returned statistics. A returned payload models a completed
writeFileSync; an error models the operation aborting with nothing
written. -/
def indexPdfToJson (texte : List Char) (sourceName : String) (chunkSize chunkOverlap : Nat)
    (embedModel : String) (embed : List Char → Except EmbedFailure (List ℚ))
    (createdAt : String) : Except EmbedFailure (IndexPayload × IndexStats) :=
  match buildItems sourceName embed 0 (chunkText texte chunkSize chunkOverlap) with
  | .error e => .error e
  | .ok items =>
    .ok ({ createdAt := createdAt, source := sourceName, embedModel := embedModel,
           chunkSize := chunkSize, chunkOverlap := chunkOverlap, count := items.length,
           items := items },
         { chunks := items.length, embedModel := embedModel, source := sourceName })

/-- JSON values, as the tree JSON.stringify writes and JSON.parse returns.
JSON.stringify and JSON.parse are Node built-ins that are mutually inverse
on trees of finite numbers, strings, arrays and plain objects, so the
persisted byte round-trip is modelled as the identity on this tree. -/
inductive Json where
  | str (s : String)
  | num (q : ℚ)
  | arr (elems : List Json)
  | obj (fields : List (String × Json))

/-- Property lookup among the fields of a parsed JSON object. -/
def lookupField : List (String × Json) → String → Option Json
  | [], _ => none
  | (k, v) :: fs, key => if k = key then some v else lookupField fs key

/-- Field access on a JSON value. -/
def Json.getField : Json → String → Option Json
  | .obj fs, key => lookupField fs key
  | _, _ => none

def Json.asString : Json → Option String
  | .str s => some s
  | _ => none

def Json.asNum : Json → Option ℚ
  | .num q => some q
  | _ => none

/-- A JSON number read back as a non-negative integer. -/
def Json.asNat : Json → Option Nat
  | .num q => if q.den = 1 ∧ 0 ≤ q.num then some q.num.toNat else none
  | _ => none

def Json.asArr : Json → Option (List Json)
  | .arr xs => some xs
  | _ => none

/-- The JSON form of one items entry, as written by JSON.stringify. -/
def encodeItem (it : IndexItem) : Json :=
  .obj [("id", .str it.id), ("source", .str it.source), ("chunk", .num it.chunk),
        ("text", .str it.text), ("embedding", .arr (it.embedding.map Json.num))]

/-- The JSON form of the payload, as written by JSON.stringify. -/
def encodePayload (p : IndexPayload) : Json :=
  .obj [("createdAt", .str p.createdAt), ("source", .str p.source),
        ("embedModel", .str p.embedModel), ("chunkSize", .num p.chunkSize),
        ("chunkOverlap", .num p.chunkOverlap), ("count", .num p.count),
        ("items", .arr (p.items.map encodeItem))]

def decodeNums : List Json → Option (List ℚ)
  | [] => some []
  | j :: js =>
    match j.asNum, decodeNums js with
    | some q, some qs => some (q :: qs)
    | _, _ => none

/-- Reading one items entry back, per the persisted schema of the
specification. -/
def decodeItem (j : Json) : Option IndexItem :=
  match (j.getField "id").bind Json.asString, (j.getField "source").bind Json.asString,
      (j.getField "chunk").bind Json.asNat, (j.getField "text").bind Json.asString,
      (j.getField "embedding").bind Json.asArr with
  | some id, some source, some chunk, some text, some embJ =>
    match decodeNums embJ with
    | some embedding =>
      some { id := id, source := source, chunk := chunk, text := text, embedding := embedding }
    | none => none
  | _, _, _, _, _ => none

def decodeItems : List Json → Option (List IndexItem)
  | [] => some []
  | j :: js =>
    match decodeItem j, decodeItems js with
    | some it, some its => some (it :: its)
    | _, _ => none

/-- Reading the whole payload back, per the persisted schema of the
specification. -/
def decodePayload (j : Json) : Option IndexPayload :=
  match (j.getField "createdAt").bind Json.asString, (j.getField "source").bind Json.asString,
      (j.getField "embedModel").bind Json.asString, (j.getField "chunkSize").bind Json.asNat,
      (j.getField "chunkOverlap").bind Json.asNat, (j.getField "count").bind Json.asNat,
      (j.getField "items").bind Json.asArr with
  | some createdAt, some source, some embedModel, some chunkSize, some chunkOverlap,
      some count, some itemsJ =>
    match decodeItems itemsJ with
    | some items =>
      some { createdAt := createdAt, source := source, embedModel := embedModel,
             chunkSize := chunkSize, chunkOverlap := chunkOverlap, count := count,
             items := items }
    | none => none
  | _, _, _, _, _, _, _ => none

/-- db.items with the or-empty default, as answerQuestion extracts it. -/
def itemsOrEmpty (j : Json) : List Json :=
  match j.getField "items" with
  | some (.arr xs) => xs
  | _ => []

/-- The two failures of the answerQuestion load phase; the source throws
Error objects with distinct messages (Index introuvable / Index vide). -/
inductive AnswerFailure where
  | indexNotFound
  | emptyIndex
deriving DecidableEq

/-- The load phase of answerQuestion: a missing index file fails before
anything is read; a parsed index with no items fails next; otherwise the
items are handed to the scoring step. The Option argument is the persisted
file: none when fs.existsSync is false, some parsed JSON otherwise. -/
def loadIndexItems (file : Option Json) : Except AnswerFailure (List Json) :=
  match file with
  | none => .error .indexNotFound
  | some db =>
    if (itemsOrEmpty db).length = 0 then .error .emptyIndex else .ok (itemsOrEmpty db)

/-- The scoring map of answerQuestion: each item paired with the cosine
similarity of the question vector and its embedding. -/
noncomputable def scoreItems (q : List ℚ) (items : List IndexItem) : List (ScoredRec ℝ) :=
  items.map (fun it => { seq := it.chunk, score := cosineSimilarity q it.embedding })

/-- The retrieval step of answerQuestion: score every item, stable-sort
descending by score, keep the first topK. -/
noncomputable def rankBySimilarity (q : List ℚ) (items : List IndexItem) (topK : Nat) :
    List (ScoredRec ℝ) :=
  rankTopK (scoreItems q items) topK

theorem windowSlice_to_end (l : List Char) (i : Nat) :
    windowSlice l i l.length = l.drop i := by
  rw [windowSlice, ← List.length_drop, List.take_length]

theorem windowSlice_append_drop (l : List Char) {i e : Nat} (h : i ≤ e) :
    windowSlice l i e ++ l.drop e = l.drop i := by
  have hd : l.drop e = (l.drop i).drop (e - i) := by
    rw [List.drop_drop]
    congr 1
    omega
  rw [windowSlice, hd, List.take_append_drop]

theorem drop_windowSlice (l : List Char) (s e o : Nat) :
    (windowSlice l s e).drop o = windowSlice l (s + o) e := by
  rw [windowSlice, windowSlice, List.drop_take, List.drop_drop]
  congr 1
  omega

theorem overlapDropped_nil (cleaned : List Char) (o : Nat) :
    overlapDropped cleaned o [] = [] := rfl

theorem overlapDropped_cons (cleaned : List Char) (o : Nat) (p : Nat × Nat)
    (ws : List (Nat × Nat)) :
    overlapDropped cleaned o (p :: ws) =
      (windowSlice cleaned p.1 p.2).drop o ++ overlapDropped cleaned o ws := by
  simp [overlapDropped]

/-- When overlap < window size, the windowing loop terminates with enough
fuel, its first window starts at the cursor, its windows reassemble the
text from the cursor on, and the last window ends at the text's end. -/
theorem windowLoop_spec (cleaned : List Char) (w o : Nat) (ho : o < w) :
    ∀ fuel i, i < cleaned.length → cleaned.length - i < fuel →
      ∃ ws, windowLoop cleaned w o fuel i = some ws ∧
        ws.head? = some (i, min (i + w) cleaned.length) ∧
        reassemble cleaned o ws = cleaned.drop i ∧
        overlapDropped cleaned o ws = cleaned.drop (i + o) ∧
        ws.getLast?.map Prod.snd = some cleaned.length := by
  intro fuel
  induction fuel with
  | zero => intro i _ hf; omega
  | succ n ih =>
    intro i hi hf
    by_cases he : min (i + w) cleaned.length = cleaned.length
    · refine ⟨[(i, min (i + w) cleaned.length)], ?_, rfl, ?_, ?_, ?_⟩
      · simp [windowLoop, hi, he]
      · rw [reassemble, overlapDropped_nil, List.append_nil]
        show windowSlice cleaned i (min (i + w) cleaned.length) = cleaned.drop i
        rw [he, windowSlice_to_end]
      · rw [overlapDropped_cons, overlapDropped_nil, List.append_nil]
        show (windowSlice cleaned i (min (i + w) cleaned.length)).drop o = cleaned.drop (i + o)
        rw [he, windowSlice_to_end, List.drop_drop]
      · simp [he]
    · have hwle : i + w ≤ cleaned.length := by
        rcases Nat.le_total (i + w) cleaned.length with h | h
        · exact h
        · exact absurd (Nat.min_eq_right h) he
      have hemin : min (i + w) cleaned.length = i + w := Nat.min_eq_left hwle
      have helt : i + w < cleaned.length := by omega
      obtain ⟨ws', hws', hhead', hre', hod', hlast'⟩ :=
        ih (i + w - o) (by omega) (by omega)
      obtain ⟨p', tl', rfl⟩ : ∃ p' tl', ws' = p' :: tl' := by
        cases ws' with
        | nil => simp at hhead'
        | cons p' tl' => exact ⟨p', tl', rfl⟩
      refine ⟨(i, min (i + w) cleaned.length) :: p' :: tl', ?_, rfl, ?_, ?_, ?_⟩
      · have hrec : windowLoop cleaned w o n (min (i + w) cleaned.length - o) =
            some (p' :: tl') := by
          rw [hemin]
          exact hws'
        simp [windowLoop, hi, he, hrec]
      · have hod2 : overlapDropped cleaned o (p' :: tl') = cleaned.drop (i + w) := by
          rw [hod']
          congr 1
          omega
        rw [reassemble, hod2]
        show windowSlice cleaned i (min (i + w) cleaned.length) ++ cleaned.drop (i + w) =
          cleaned.drop i
        rw [hemin, windowSlice_append_drop cleaned (by omega)]
      · have hod2 : overlapDropped cleaned o (p' :: tl') = cleaned.drop (i + w) := by
          rw [hod']
          congr 1
          omega
        rw [overlapDropped_cons, hod2]
        show (windowSlice cleaned i (min (i + w) cleaned.length)).drop o ++
            cleaned.drop (i + w) = cleaned.drop (i + o)
        rw [hemin, drop_windowSlice, windowSlice_append_drop cleaned (by omega)]
      · rw [List.getLast?_cons_cons]
        exact hlast'

/-- The chunk loop is the window loop followed by trimming each window and
dropping the chunks that trim to nothing. -/
theorem chunkLoop_eq_windowLoop (cleaned : List Char) (w o : Nat) :
    ∀ fuel i, chunkLoop cleaned w o fuel i =
      (windowLoop cleaned w o fuel i).map
        (fun ws => (ws.map fun p => trimChars (windowSlice cleaned p.1 p.2)).filter
          (fun c => !c.isEmpty)) := by
  intro fuel
  induction fuel with
  | zero => intro i; rfl
  | succ n ih =>
    intro i
    by_cases hi : i < cleaned.length
    · by_cases he : min (i + w) cleaned.length = cleaned.length
      · simp only [chunkLoop, windowLoop, if_pos hi, if_pos he, Option.map_some]
        rcases hc : trimChars (windowSlice cleaned i (min (i + w) cleaned.length)) with _ | ⟨c, cs⟩
        · simp [hc]
        · simp [hc]
      · simp only [chunkLoop, windowLoop, if_pos hi, if_neg he, ih]
        rcases hw : windowLoop cleaned w o n (min (i + w) cleaned.length - o) with _ | ws
        · simp
        · simp only [Option.map_some]
          rcases hc : trimChars (windowSlice cleaned i (min (i + w) cleaned.length)) with _ | ⟨c, cs⟩
          · simp [hc]
          · simp [hc]
    · simp [chunkLoop, windowLoop, hi]

/-- chunkText in terms of the windows it visits: trim each window, drop
the empties. -/
theorem chunkText_eq_windows (t : List Char) (w o : Nat) :
    chunkText t w o =
      ((windowsOf t w o).map fun p => trimChars (windowSlice (normalizeText t) p.1 p.2)).filter
        (fun c => !c.isEmpty) := by
  unfold chunkText windowsOf
  rw [chunkLoop_eq_windowLoop]
  rcases hw : windowLoop (normalizeText t) w o ((normalizeText t).length + 1) 0 with _ | ws
  · simp [hw]
  · simp [hw]

/-- Claim C1: for every input text, every windowSize > 0 and every
overlap ≥ 0 (including overlap ≥ windowSize) the segmentation loop makes
forward progress and terminates. The code contradicts this: on the
already-normalized ten-character text aaaaaaaaaa with windowSize 5 and
overlap 5, the cursor is reset to max(0, 5 - 5) = 0 on every iteration, so
the loop never terminates, whatever the iteration budget. -/
theorem c1_chunkLoop_never_terminates :
    normalizeText ['a', 'a', 'a', 'a', 'a', 'a', 'a', 'a', 'a', 'a'] =
      ['a', 'a', 'a', 'a', 'a', 'a', 'a', 'a', 'a', 'a'] ∧
    ∀ fuel : Nat,
      chunkLoop ['a', 'a', 'a', 'a', 'a', 'a', 'a', 'a', 'a', 'a'] 5 5 fuel 0 = none := by
  constructor
  · decide
  · intro fuel
    induction fuel with
    | zero => rfl
    | succ n ih => simp [chunkLoop, ih]

theorem trimRight_ne_nil {c : Char} (h : isWS c = false) (cs : List Char) :
    trimRight (c :: cs) ≠ [] := by
  simp only [trimRight]
  by_cases hr : trimRight cs = [] <;> simp [hr, h]

theorem trimRight_head_eq {l : List Char} {c : Char} {cs : List Char}
    (h : trimRight l = c :: cs) : l.head? = some c := by
  cases l with
  | nil => simp [trimRight] at h
  | cons a as =>
    simp only [trimRight] at h
    split at h
    · split at h
      · exact absurd h (by simp)
      · injection h with h1 _
        simp [h1]
    · injection h with h1 _
      simp [h1]

theorem dropWhile_head_false {p : Char → Bool} :
    ∀ {l : List Char} {c : Char} {cs : List Char}, l.dropWhile p = c :: cs → p c = false := by
  intro l
  induction l with
  | nil => intro c cs h; simp [List.dropWhile] at h
  | cons a as ih =>
    intro c cs h
    rw [List.dropWhile_cons] at h
    by_cases hp : p a
    · rw [if_pos hp] at h
      exact ih h
    · rw [if_neg hp] at h
      injection h with h1 _
      rw [← h1]
      simpa using hp

theorem normalizeText_head_not_ws {t : List Char} {c : Char} {cs : List Char}
    (h : normalizeText t = c :: cs) : isWS c = false := by
  rw [normalizeText, trimChars] at h
  have h2 := trimRight_head_eq h
  rcases h3 : (collapseNL 0 (collapseHS false (t.filter fun c => c != '\r'))).dropWhile isWS
    with _ | ⟨a, as⟩
  · rw [h3] at h2
    simp at h2
  · rw [h3] at h2
    simp only [List.head?] at h2
    injection h2 with h4
    rw [← h4]
    exact dropWhile_head_false h3

theorem trimChars_take_ne_nil {c : Char} (hw : isWS c = false) (cs : List Char) {e : Nat}
    (he : 0 < e) : trimChars ((c :: cs).take e) ≠ [] := by
  obtain ⟨e1, rfl⟩ : ∃ e1, e = e1 + 1 := ⟨e - 1, by omega⟩
  rw [List.take_succ_cons, trimChars, List.dropWhile_cons, if_neg (by simp [hw])]
  exact trimRight_ne_nil hw _

/-- With overlap < window size and non-empty normalized text, chunkText
emits at least one segment: the first window starts at the first
character, which normalization guaranteed to be non-whitespace, so its
trim is non-empty and survives the filter. -/
theorem chunkText_ne_nil (t : List Char) (w o : Nat) (hw : 0 < w) (ho : o < w)
    (hne : normalizeText t ≠ []) : chunkText t w o ≠ [] := by
  obtain ⟨c, cs, hc⟩ := List.exists_cons_of_ne_nil hne
  have hcws : isWS c = false := normalizeText_head_not_ws hc
  have hlen : 0 < (normalizeText t).length := List.length_pos.mpr hne
  obtain ⟨ws, hws, hhead, _, _, _⟩ :=
    windowLoop_spec (normalizeText t) w o ho ((normalizeText t).length + 1) 0 hlen (by omega)
  have hwsOf : windowsOf t w o = ws := by rw [windowsOf, hws]; rfl
  obtain ⟨p, tl, rfl⟩ : ∃ p tl, ws = p :: tl := by
    cases ws with
    | nil => simp at hhead
    | cons p tl => exact ⟨p, tl, rfl⟩
  have hp : p = (0, min (0 + w) (normalizeText t).length) := by
    simp only [List.head?, Option.some.injEq] at hhead
    exact hhead
  have hne2 : trimChars (windowSlice (normalizeText t) 0
      (min (0 + w) (normalizeText t).length)) ≠ [] := by
    rw [windowSlice]
    simp only [List.drop_zero, Nat.sub_zero]
    rw [hc]
    exact trimChars_take_ne_nil hcws cs (lt_min (by omega) (by simp))
  rw [chunkText_eq_windows, hwsOf, hp, List.map_cons]
  rcases hX : trimChars (windowSlice (normalizeText t) 0
      (min (0 + w) (normalizeText t).length)) with _ | ⟨x0, xs0⟩
  · exact absurd hX hne2
  · rw [List.filter_cons_of_pos (by simp)]
    simp

/-- Claim C5 counterexample: on the already-normalized text ab cd with
window 3 and overlap 0 the emitted segments are ab and cd; their
overlap-accounted concatenation is abcd, which differs from the normalized
text, because the per-segment trim dropped the boundary space. -/
theorem c5_counterexample :
    chunkText ['a', 'b', ' ', 'c', 'd'] 3 0 = [['a', 'b'], ['c', 'd']] ∧
    normalizeText ['a', 'b', ' ', 'c', 'd'] = ['a', 'b', ' ', 'c', 'd'] ∧
    overlapConcat 0 (chunkText ['a', 'b', ' ', 'c', 'd'] 3 0) ≠
      normalizeText ['a', 'b', ' ', 'c', 'd'] := by
  decide

/-- Claim C5, amended: the untrimmed window slices visited by the loop,
after dropping the declared overlap from each window but the first,
concatenate to exactly the normalized text, and the last window's end
coincides with the text's end; the emitted segments are the trims of these
windows with empty trims dropped (so the segments themselves reconstruct
the text only up to the whitespace trimmed at window boundaries). -/
theorem c5_windows_reassemble (t : List Char) (w o : Nat) (ho : o < w)
    (hne : normalizeText t ≠ []) :
    reassemble (normalizeText t) o (windowsOf t w o) = normalizeText t ∧
    (windowsOf t w o).getLast?.map Prod.snd = some (normalizeText t).length ∧
    chunkText t w o =
      ((windowsOf t w o).map fun p => trimChars (windowSlice (normalizeText t) p.1 p.2)).filter
        (fun c => !c.isEmpty) := by
  have hlen : 0 < (normalizeText t).length := List.length_pos.mpr hne
  obtain ⟨ws, hws, _, hre, _, hlast⟩ :=
    windowLoop_spec (normalizeText t) w o ho ((normalizeText t).length + 1) 0 hlen (by omega)
  have hwsOf : windowsOf t w o = ws := by rw [windowsOf, hws]; rfl
  refine ⟨?_, ?_, chunkText_eq_windows t w o⟩
  · rw [hwsOf]
    simpa using hre
  · rw [hwsOf, hlast]

theorem c5_windows_reassemble_witness :
    (1 < 3 ∧ normalizeText ['a', 'b', ' ', 'c', 'd'] ≠ []) ∧
    reassemble (normalizeText ['a', 'b', ' ', 'c', 'd']) 1
        (windowsOf ['a', 'b', ' ', 'c', 'd'] 3 1) =
      normalizeText ['a', 'b', ' ', 'c', 'd'] :=
  ⟨⟨by decide, by decide⟩,
    (c5_windows_reassemble ['a', 'b', ' ', 'c', 'd'] 3 1 (by decide) (by decide)).1⟩

/-- The indexing loop numbers its items i + 1, i + 2, ... in emission
order. -/
theorem buildItems_chunk_numbers (src : String)
    (embed : List Char → Except EmbedFailure (List ℚ)) :
    ∀ (cs : List (List Char)) (i : Nat) (items : List IndexItem),
      buildItems src embed i cs = .ok items →
      items.map IndexItem.chunk = List.range' (i + 1) cs.length := by
  intro cs
  induction cs with
  | nil =>
    intro i items h
    simp only [buildItems, Except.ok.injEq] at h
    subst h
    simp [List.range']
  | cons c cs ih =>
    intro i items h
    simp only [buildItems] at h
    rcases he : embed c with e | v
    · rw [he] at h
      exact absurd h (by simp)
    · rw [he] at h
      rcases hb : buildItems src embed (i + 1) cs with e | rest
      · rw [hb] at h
        exact absurd h (by simp)
      · rw [hb] at h
        simp only [Except.ok.injEq] at h
        subst h
        simp only [List.map_cons, List.length_cons, List.range']
        exact congrArg (List.cons (i + 1)) (ih (i + 1) rest hb)

/-- Claim C9: chunkText returns an empty sequence exactly when the input
normalizes to the empty text (and, being a total function, never raises an
error); and the items built by the indexing loop over the emitted segments
carry the unique 1-based sequence numbers 1..N in emission order. Stated
for the terminating parameter range overlap < window size, which includes
the defaults 1200 and 200 the application uses. -/
theorem c9_empty_iff_and_numbering (t : List Char) (w o : Nat) (hw : 0 < w) (ho : o < w) :
    (chunkText t w o = [] ↔ normalizeText t = []) ∧
    ∀ (src : String) (embed : List Char → Except EmbedFailure (List ℚ))
      (items : List IndexItem),
      buildItems src embed 0 (chunkText t w o) = .ok items →
      items.map IndexItem.chunk = List.range' 1 (chunkText t w o).length := by
  constructor
  · constructor
    · intro hempty
      by_contra hne
      exact chunkText_ne_nil t w o hw ho hne hempty
    · intro hnil
      simp [chunkText, hnil, chunkLoop]
  · intro src embed items h
    exact buildItems_chunk_numbers src embed _ 0 items h

theorem c9_empty_iff_and_numbering_witness :
    (0 < 5 ∧ 2 < 5) ∧
    (chunkText ['h', 'i'] 5 2 = [] ↔ normalizeText ['h', 'i'] = []) :=
  ⟨⟨by decide, by decide⟩,
    (c9_empty_iff_and_numbering ['h', 'i'] 5 2 (by decide) (by decide)).1⟩

theorem simSums_spec (a b : List ℚ) :
    simSums a b = (∑ i ∈ Finset.range (min a.length b.length), a.getD i 0 * b.getD i 0,
      ∑ i ∈ Finset.range (min a.length b.length), a.getD i 0 * a.getD i 0,
      ∑ i ∈ Finset.range (min a.length b.length), b.getD i 0 * b.getD i 0) := by
  induction a generalizing b with
  | nil => cases b <;> simp [simSums]
  | cons x xs ih =>
    cases b with
    | nil => simp [simSums]
    | cons y ys =>
      simp only [simSums, ih ys, List.length_cons, Nat.succ_min_succ, Finset.sum_range_succ',
        List.getD_cons_succ, List.getD_cons_zero, Prod.mk.injEq]
      refine ⟨?_, ?_, ?_⟩ <;> ring

theorem simSums_take (a b : List ℚ) :
    simSums a b = simSums (a.take (min a.length b.length)) (b.take (min a.length b.length)) := by
  induction a generalizing b with
  | nil => cases b <;> simp [simSums]
  | cons x xs ih =>
    cases b with
    | nil => simp [simSums]
    | cons y ys =>
      simp only [List.length_cons, Nat.succ_min_succ, List.take_succ_cons, simSums]
      rw [ih ys]

theorem simSums_min_zero (a b : List ℚ) (h : min a.length b.length = 0) :
    simSums a b = (0, 0, 0) := by
  cases a with
  | nil => cases b <;> rfl
  | cons x xs =>
    cases b with
    | nil => rfl
    | cons y ys => simp at h

theorem simSums_comm (a b : List ℚ) :
    simSums a b = ((simSums b a).1, (simSums b a).2.2, (simSums b a).2.1) := by
  induction a generalizing b with
  | nil => cases b <;> simp [simSums]
  | cons x xs ih =>
    cases b with
    | nil => simp [simSums]
    | cons y ys =>
      simp only [simSums, ih ys, Prod.mk.injEq, and_true, true_and]
      ring

/-- Claim C6: cosineSimilarity equals the specification's formula, with
all three sums taken over the indices below the shorter length, and a zero
denominator is a defined, non-error case yielding exactly 0. -/
theorem c6_cosineSimilarity_formula (a b : List ℚ) :
    (Real.sqrt (specSum a a (min a.length b.length)) *
        Real.sqrt (specSum b b (min a.length b.length)) = 0 →
      cosineSimilarity a b = 0) ∧
    (Real.sqrt (specSum a a (min a.length b.length)) *
        Real.sqrt (specSum b b (min a.length b.length)) ≠ 0 →
      cosineSimilarity a b =
        specSum a b (min a.length b.length) /
          (Real.sqrt (specSum a a (min a.length b.length)) *
            Real.sqrt (specSum b b (min a.length b.length)))) := by
  have h1 : ((simSums a b).1 : ℝ) = specSum a b (min a.length b.length) := by
    rw [simSums_spec, specSum]
    push_cast
    rfl
  have h2 : ((simSums a b).2.1 : ℝ) = specSum a a (min a.length b.length) := by
    rw [simSums_spec, specSum]
    push_cast
    rfl
  have h3 : ((simSums a b).2.2 : ℝ) = specSum b b (min a.length b.length) := by
    rw [simSums_spec, specSum]
    push_cast
    rfl
  constructor
  · intro h
    simp only [cosineSimilarity, h1, h2, h3]
    rw [if_pos h]
  · intro h
    simp only [cosineSimilarity, h1, h2, h3]
    rw [if_neg h]

theorem c6_cosineSimilarity_formula_witness :
    cosineSimilarity [(0 : ℚ)] [(1 : ℚ)] = 0 ∧ cosineSimilarity [(1 : ℚ)] [(1 : ℚ)] = 1 := by
  constructor
  · apply (c6_cosineSimilarity_formula [(0 : ℚ)] [(1 : ℚ)]).1
    simp [specSum]
  · have h : Real.sqrt (specSum [(1 : ℚ)] [(1 : ℚ)] (min 1 1)) *
        Real.sqrt (specSum [(1 : ℚ)] [(1 : ℚ)] (min 1 1)) ≠ 0 := by
      simp [specSum]
    have h2 := (c6_cosineSimilarity_formula [(1 : ℚ)] [(1 : ℚ)]).2
    simp only [List.length_cons, List.length_nil] at h2 ⊢
    rw [h2 h]
    simp [specSum]

/-- Claim C10: cosineSimilarity is symmetric in its two arguments: it
reads only the common prefix and combines the per-index products
commutatively, and the denominator is a commutative product. -/
theorem c10_cosineSimilarity_comm (a b : List ℚ) :
    cosineSimilarity a b = cosineSimilarity b a := by
  simp only [cosineSimilarity, simSums_comm a b]
  rw [mul_comm (Real.sqrt ((simSums b a).2.2 : ℝ)) (Real.sqrt ((simSums b a).2.1 : ℝ))]

/-- Claim C2, amended: the similarity comparison never fails; it reads
only the common prefix of the two vectors (so vectors of differing
non-zero lengths are compared over the shorter length), and when the
vectors share no comparable dimensions the result is the defined score 0
rather than a DimensionMismatchError. -/
theorem c2_similarity_min_prefix_total (a b : List ℚ) :
    cosineSimilarity a b =
      cosineSimilarity (a.take (min a.length b.length)) (b.take (min a.length b.length)) ∧
    (min a.length b.length = 0 → cosineSimilarity a b = 0) := by
  constructor
  · simp only [cosineSimilarity]
    rw [← simSums_take]
  · intro h
    simp only [cosineSimilarity]
    rw [simSums_min_zero a b h]
    simp

theorem c2_similarity_min_prefix_total_witness :
    cosineSimilarity [(2 : ℚ)] [(3 : ℚ), (4 : ℚ)] = cosineSimilarity [(2 : ℚ)] [(3 : ℚ)] ∧
    cosineSimilarity [] [(5 : ℚ)] = 0 := by
  constructor
  · have h := (c2_similarity_min_prefix_total [(2 : ℚ)] [(3 : ℚ), (4 : ℚ)]).1
    simpa using h
  · exact (c2_similarity_min_prefix_total [] [(5 : ℚ)]).2 rfl

/-- Claim C2 counterexample: on a query vector with no comparable
dimensions the source similarity returns the defined score 0 and raises
nothing, where the claim asserts the step fails with
DimensionMismatchError (as the spec-side model does). -/
theorem c2_counterexample :
    cosineSimilarity [] [(1 : ℚ)] = 0 ∧
    cosineSimilaritySpec [] [(1 : ℚ)] = .error .dimensionMismatch := by
  constructor
  · simp [cosineSimilarity, simSums]
  · simp [cosineSimilaritySpec]

theorem filter_orderedInsert_score_eq {σ : Type} [LinearOrder σ] (q : σ) (x : ScoredRec σ)
    (hx : x.score = q) :
    ∀ l : List (ScoredRec σ),
      (l.orderedInsert (fun a b => b.score ≤ a.score) x).filter
          (fun r => decide (r.score = q)) =
        x :: l.filter (fun r => decide (r.score = q)) := by
  intro l
  induction l with
  | nil => simp [List.orderedInsert, hx]
  | cons y ys ih =>
    rw [List.orderedInsert]
    by_cases hr : y.score ≤ x.score
    · rw [if_pos hr]
      rw [List.filter_cons_of_pos (by simp [hx])]
    · rw [if_neg hr]
      have hy : ¬ y.score = q := by
        intro hq
        exact hr (by rw [hq, ← hx])
      rw [List.filter_cons_of_neg (by simp [hy]), List.filter_cons_of_neg (by simp [hy]), ih]

theorem filter_orderedInsert_score_ne {σ : Type} [LinearOrder σ] (q : σ) (x : ScoredRec σ)
    (hx : ¬ x.score = q) :
    ∀ l : List (ScoredRec σ),
      (l.orderedInsert (fun a b => b.score ≤ a.score) x).filter
          (fun r => decide (r.score = q)) =
        l.filter (fun r => decide (r.score = q)) := by
  intro l
  induction l with
  | nil => simp [List.orderedInsert, hx]
  | cons y ys ih =>
    rw [List.orderedInsert]
    by_cases hr : y.score ≤ x.score
    · rw [if_pos hr]
      rw [List.filter_cons_of_neg (by simp [hx])]
    · rw [if_neg hr]
      by_cases hy : y.score = q
      · rw [List.filter_cons_of_pos (by simp [hy]), List.filter_cons_of_pos (by simp [hy]), ih]
      · rw [List.filter_cons_of_neg (by simp [hy]), List.filter_cons_of_neg (by simp [hy]), ih]

/-- The stable sort keeps records of any given score in their original
relative order: filtering the sorted list down to one score class gives
exactly the filter of the input. -/
theorem sortScoredDesc_stable {σ : Type} [LinearOrder σ] (q : σ) (l : List (ScoredRec σ)) :
    (sortScoredDesc l).filter (fun r => decide (r.score = q)) =
      l.filter (fun r => decide (r.score = q)) := by
  induction l with
  | nil => rfl
  | cons x xs ih =>
    show ((List.insertionSort _ xs).orderedInsert _ x).filter _ = _
    by_cases hx : x.score = q
    · rw [filter_orderedInsert_score_eq q x hx, List.filter_cons_of_pos (by simp [hx])]
      exact congrArg (List.cons x) ih
    · rw [filter_orderedInsert_score_ne q x hx, List.filter_cons_of_neg (by simp [hx])]
      exact ih

/-- Evaluation of the specification's worked ranking example on the
model. -/
theorem rankTopK_example_eval :
    (rankTopK ([⟨2, 9/10⟩, ⟨1, 9/10⟩, ⟨3, 2/10⟩] : List (ScoredRec ℚ)) 2).map ScoredRec.seq =
      [2, 1] := by
  norm_num [rankTopK, sortScoredDesc, List.insertionSort, List.orderedInsert, List.take]

/-- Claim C4, amended: the ranking step returns at most k records, sorted
descending by score, with ties broken by position in the scored list (the
items' insertion order, which for an index built by indexPdfToJson is
ascending sequence order) because the sort is stable; with k at least the
collection size every record is returned in that order; and on the
worked example with scores 0.9, 0.9, 0.2 listed for sequence numbers 2, 1,
3, the two tied records keep their list order, so k = 2 returns sequence
numbers 2 then 1 (not 1 then 2 as the claim reads). -/
theorem c4_rank_sorted_stable_topk (σ : Type) [LinearOrder σ] (l : List (ScoredRec σ))
    (k : Nat) :
    (rankTopK l k).length = min k l.length ∧
    (rankTopK l k).Pairwise (fun a b => b.score ≤ a.score) ∧
    (∀ q : σ, (sortScoredDesc l).filter (fun r => decide (r.score = q)) =
      l.filter (fun r => decide (r.score = q))) ∧
    (l.length ≤ k → List.Perm (rankTopK l k) l) ∧
    (rankTopK ([⟨2, 9/10⟩, ⟨1, 9/10⟩, ⟨3, 2/10⟩] : List (ScoredRec ℚ)) 2).map ScoredRec.seq =
      [2, 1] := by
  have hsorted : (sortScoredDesc l).Pairwise (fun a b => b.score ≤ a.score) := by
    have : IsTotal (ScoredRec σ) (fun a b => b.score ≤ a.score) :=
      ⟨fun a b => le_total b.score a.score⟩
    have : IsTrans (ScoredRec σ) (fun a b => b.score ≤ a.score) :=
      ⟨fun a b c hab hbc => le_trans hbc hab⟩
    exact List.sorted_insertionSort _ l
  have hlen : (sortScoredDesc l).length = l.length := List.length_insertionSort _ l
  refine ⟨?_, ?_, fun q => sortScoredDesc_stable q l, ?_, rankTopK_example_eval⟩
  · rw [rankTopK, List.length_take, hlen]
  · exact hsorted.sublist (List.take_sublist k _)
  · intro hk
    rw [rankTopK, List.take_of_length_le (by rw [hlen]; exact hk)]
    exact List.perm_insertionSort _ l

theorem c4_rank_sorted_stable_topk_witness :
    ([⟨1, (1 : ℚ)⟩] : List (ScoredRec ℚ)).length ≤ 2 ∧
    List.Perm (rankTopK ([⟨1, (1 : ℚ)⟩] : List (ScoredRec ℚ)) 2)
      [⟨1, (1 : ℚ)⟩] :=
  ⟨by decide, (c4_rank_sorted_stable_topk ℚ [⟨1, (1 : ℚ)⟩] 2).2.2.2.1 (by decide)⟩

/-- Claim C4 counterexample: a collection listing scores 0.9, 0.9, 0.2 for
sequence numbers 2, 1, 3 ranked with k = 2 returns sequence numbers 2 then
1 — the stable sort keeps tied records in list order — not 1 then 2 as the
claim asserts. -/
theorem c4_counterexample :
    (rankTopK ([⟨2, 9/10⟩, ⟨1, 9/10⟩, ⟨3, 2/10⟩] : List (ScoredRec ℚ)) 2).map ScoredRec.seq ≠
      [1, 2] := by
  rw [rankTopK_example_eval]
  decide

/-- Claim C3 counterexample: on input whose normalization is empty,
segmentation yields zero segments, yet the indexing operation does not
fail: it returns ok, persisting an index payload with count 0 and no
items (and reporting 0 chunks), where the claim asserts an
EmptyCollectionError with nothing written. -/
theorem c3_counterexample :
    indexPdfToJson [] "doc.pdf" 1200 200 "nomic-embed-text" (fun _ => .ok []) "t0" =
      .ok ({ createdAt := "t0", source := "doc.pdf", embedModel := "nomic-embed-text",
             chunkSize := 1200, chunkOverlap := 200, count := 0, items := [] },
           { chunks := 0, embedModel := "nomic-embed-text", source := "doc.pdf" }) := by
  rfl

/-- Claim C3, amended: when segmentation yields zero segments the indexing
operation succeeds instead of failing: no embedding call is made and an
empty index (count 0, items empty) is written to durable storage. (The
fail-fast part of the claim that does hold: an embedding failure for any
segment aborts the operation with nothing written, as buildItems
propagates the first error before any payload exists.) -/
theorem c3_empty_chunks_persists_empty_index (texte : List Char) (src em ts : String)
    (cs co : Nat) (embed : List Char → Except EmbedFailure (List ℚ))
    (h : chunkText texte cs co = []) :
    indexPdfToJson texte src cs co em embed ts =
      .ok ({ createdAt := ts, source := src, embedModel := em, chunkSize := cs,
             chunkOverlap := co, count := 0, items := [] },
           { chunks := 0, embedModel := em, source := src }) := by
  simp [indexPdfToJson, h, buildItems]

theorem c3_empty_chunks_persists_empty_index_witness :
    chunkText [' '] 5 1 = [] ∧
    indexPdfToJson [' '] "s" 5 1 "m" (fun _ => .ok []) "t" =
      .ok ({ createdAt := "t", source := "s", embedModel := "m", chunkSize := 5,
             chunkOverlap := 1, count := 0, items := [] },
           { chunks := 0, embedModel := "m", source := "s" }) :=
  ⟨by decide,
    c3_empty_chunks_persists_empty_index [' '] "s" "m" "t" 5 1 (fun _ => .ok []) (by decide)⟩

theorem decodeNums_encode (l : List ℚ) : decodeNums (l.map Json.num) = some l := by
  induction l with
  | nil => rfl
  | cons q qs ih => simp [decodeNums, Json.asNum, ih]

theorem asNat_natCast (n : Nat) : Json.asNat (Json.num n) = some n := by
  rw [Json.asNat, if_pos ⟨Rat.den_natCast n, by simp⟩]
  simp [Rat.num_natCast]

theorem decodeItem_encode (it : IndexItem) : decodeItem (encodeItem it) = some it := by
  simp [decodeItem, encodeItem, Json.getField, lookupField, Json.asString, Json.asArr,
    asNat_natCast, decodeNums_encode]

theorem decodeItems_encode (items : List IndexItem) :
    decodeItems (items.map encodeItem) = some items := by
  induction items with
  | nil => rfl
  | cons it its ih => simp [decodeItems, decodeItem_encode, ih]

/-- Claim C7: deserializing the serialized index (the JSON tree written by
indexPdfToJson, read back as answerQuestion parses it) reproduces the
index exactly: every metadata field and every record, in order, with all
record fields; and the items array answerQuestion extracts decodes back to
exactly the original records. -/
theorem c7_index_round_trip (p : IndexPayload) :
    decodePayload (encodePayload p) = some p ∧
    decodeItems (itemsOrEmpty (encodePayload p)) = some p.items := by
  constructor
  · simp [decodePayload, encodePayload, Json.getField, lookupField, Json.asString,
      Json.asArr, asNat_natCast, decodeItems_encode]
  · simp [itemsOrEmpty, encodePayload, Json.getField, lookupField, decodeItems_encode]

/-- Claim C8: the load phase of answerQuestion fails with the
index-not-found error when no persisted index exists, fails with the
empty-index error when the loaded index has zero records, and the two
failures are distinct values (the source throws Error objects with the
distinct messages Index introuvable and Index vide). -/
theorem c8_load_failures :
    loadIndexItems none = .error .indexNotFound ∧
    (∀ db : Json, itemsOrEmpty db = [] → loadIndexItems (some db) = .error .emptyIndex) ∧
    AnswerFailure.indexNotFound ≠ AnswerFailure.emptyIndex := by
  refine ⟨rfl, ?_, by decide⟩
  intro db h
  simp [loadIndexItems, h]

theorem c8_load_failures_witness :
    itemsOrEmpty (Json.obj []) = [] ∧
    loadIndexItems (some (Json.obj [])) = .error .emptyIndex :=
  ⟨rfl, c8_load_failures.2.1 (Json.obj []) rfl⟩
